import Mathlib

/-!
Verification of the contract-solving engine of `socialfinance.py`.

The Python module defines a class `Bank` whose attributes are the economic
parameters of a credit-market model with monitored lending, and whose methods
are closed-form derived quantities: collateral-requirement curves, regime
thresholds, optimal monitoring, borrower returns and borrower reach.

All Python floats are modelled as rationals (`ℚ`); every arithmetic formula
below is transcribed directly from the corresponding method of the class.
Python's float division by zero (which yields `inf` for numpy operands or
raises `ZeroDivisionError` for plain floats) has no rational counterpart;
Lean's total division (`x / 0 = 0`) is used, and the theorems about the
division-by-zero hazard talk about the denominator itself.
-/

/-- The attribute record set up by `Bank.__init__`.  `A` is the stored array of
pledgeable-asset levels and `beta` the cost of equity capital; `__init__`
receives exactly those two and assigns fixed literals to every other
attribute (see `bankOf` below). -/
structure Bank where
  A : List ℚ
  gamma : ℚ
  beta : ℚ
  B0 : ℚ
  alpha : ℚ
  X : ℚ
  I : ℚ
  p : ℚ
  q : ℚ
  F : ℚ
  f : ℚ
  K : ℚ
  Amax : ℚ
deriving DecidableEq

namespace Bank

/-- `Bank.B`: monitoring intensity function, the private benefit the borrower
could capture via non-diligence: `B0 - alpha * m`. -/
def B (b : Bank) (m : ℚ) : ℚ := b.B0 - b.alpha * m

/-- `Bank.FC`: average fixed cost per borrower when the bank has `N` borrowers. -/
def FC (b : Bank) (N : ℚ) : ℚ := b.F / N + b.f

/-- `Bank.AMe`: minimum collateral for a non-leveraged (equity-only) MFI. -/
def AMe (b : Bank) (m : ℚ) : ℚ :=
  (b.p / (b.p - b.q)) * b.B m - (b.p * b.X - b.beta * b.I) + m + b.f

/-- `Bank.AM`: minimum collateral for a leveraged MFI. -/
def AM (b : Bank) (m : ℚ) : ℚ :=
  (b.p / (b.p - b.q)) * b.B m - (b.p * b.X - b.gamma * b.I) + m
    + ((b.beta - b.gamma) / b.beta) * (b.q * m / (b.p - b.q)) + b.f

/-- `Bank.Abest`: the lower of the two collateral requirements. -/
def Abest (b : Bank) (m : ℚ) : ℚ := min (b.AMe m) (b.AM m)

/-- `Bank.Im`: minimum required equity investment by the monitor. -/
def Im (b : Bank) (m : ℚ) : ℚ := (1 / b.beta) * b.q * m / (b.p - b.q)

/-- `Bank.mcross`: monitoring level where the equity-only `AMe` and levered
`AM` lines cross. -/
def mcross (b : Bank) : ℚ := b.beta * b.I * (b.p - b.q) / b.q

/-- `Bank.Across`: `AM` evaluated at the crossing monitoring level. -/
def Across (b : Bank) : ℚ := b.AM b.mcross

/-- `Bank.mmax`: maximal monitoring at which an equity-only monitor can just
break even. -/
def mmax (b : Bank) : ℚ := b.p * b.X - b.beta * b.I - b.f

/-- `Bank.Amin`: lowest possible collateral requirement, at maximal feasible
monitoring. -/
def Amin (b : Bank) : ℚ := b.AMe b.mmax

/-- `Bank.mon`: optimal monitoring in a leveraged MFI. -/
def mon (b : Bank) (a : ℚ) : ℚ :=
  (b.AM 0 - a) * (b.beta * (b.p - b.q)) /
    ((b.alpha - 1) * b.beta * b.p + b.gamma * b.q)

/-- `Bank.monE`: optimal monitoring in an equity-only MFI. -/
def monE (b : Bank) (a : ℚ) : ℚ :=
  (b.AMe 0 - a) * ((b.p - b.q) / (b.q + (b.alpha - 1) * b.p))

/-- `Bank.minmon`: the smaller of the two optimal monitoring levels. -/
def minmon (b : Bank) (a : ℚ) : ℚ := min (b.monE a) (b.mon a)

/-- Band-1 branch value of `Bank.breturn`: `p * X - gam * I - f`. -/
def brHigh (b : Bank) : ℚ := b.p * b.X - b.gamma * b.I - b.f

/-- Band-2 branch value of `Bank.breturn`:
`p * X - gam * I - f - mon(a) * (1 + ((beta - gam) / beta) * (q / (p - q)))`. -/
def brLev (b : Bank) (a : ℚ) : ℚ :=
  b.p * b.X - b.gamma * b.I - b.f
    - b.mon a * (1 + ((b.beta - b.gamma) / b.beta) * (b.q / (b.p - b.q)))

/-- Band-3 branch value of `Bank.breturn`: `p * X - beta * I - f - monE(a)`. -/
def brEq (b : Bank) (a : ℚ) : ℚ := b.p * b.X - b.beta * b.I - b.f - b.monE a

/-- The elementwise body of the list comprehension in `Bank.breturn`: the
chained conditional expression, branch conditions exactly as in the source. -/
def brS (b : Bank) (a : ℚ) : ℚ :=
  if a > b.AM 0 then brHigh b
  else if a ≤ b.AM 0 ∧ a > b.Across then brLev b a
  else if a ≤ b.Across ∧ a ≥ b.Amin then brEq b a
  else 0

/-- `Bank.breturn`: array of borrower returns by `A`. -/
def breturn (b : Bank) (A : List ℚ) : List ℚ := A.map b.brS

/-- The elementwise body of the loop in `Bank.nreach`.  The source writes
`np.nan` into the band-1 slot; `nan` is modelled as `none`, a defined number
`x` as `some x`. -/
def nreachS (b : Bank) (a : ℚ) : Option ℚ :=
  if a > b.AM 0 then none
  else if a ≤ b.AM 0 ∧ a > b.Across then some (b.K / (b.Im (b.mon a) - b.F))
  else if a ≤ b.Across ∧ a ≥ b.Amin then some (b.K / (b.I + b.F))
  else some 0

/-- `Bank.nreach`: number of borrowers reached with `K` of intermediary
capital at each asset level of `A`.  The source allocates `np.zeros(len(A))`
and assigns each slot independently from `A[i]`, i.e. an elementwise map. -/
def nreach (b : Bank) (A : List ℚ) : List (Option ℚ) := A.map b.nreachS

end Bank

/-- The attribute assignments performed by `Bank.__init__(self, A, beta)`:
every parameter other than `A` and `beta` is a fixed literal. -/
def bankOf (A : List ℚ) (beta : ℚ) : Bank :=
  { A := A, gamma := 1, beta := beta, B0 := 30, alpha := 1/2, X := 200,
    I := 100, p := 97/100, q := 82/100, F := 0, f := 30, K := 12000,
    Amax := 140 }

/-- `Bank.__init__` as a fallible constructor.  The source body consists of
attribute assignments only: it contains no validation and no raise statement,
so construction always succeeds. -/
def mkBank (A : List ℚ) (beta : ℚ) : Except String Bank :=
  Except.ok (bankOf A beta)

/-- The default parameter set: `Bank(A=[], beta=1)`. -/
def bank1 : Bank := bankOf [] 1

/-- The default parameter set with the project return lowered to `X = 104`
(all §3 table constraints still hold: `X > 0`, `0 < q < p ≤ 1`, positive
costs of capital, positive investment, non-negative fixed costs). -/
def bankX104 : Bank := { bankOf [] 1 with X := 104 }

/-- The default parameter set with `alpha = 0.3`, `q = 0.5` and `X = 120`.
Every §3 table constraint holds (`0 < q < p ≤ 1`, positive costs of capital
with `beta = gamma`, positive return and investment, private benefit
decreasing in `m`), but the divisor `q + (alpha - 1) * p` of `monE` is
negative. -/
def bankEneg : Bank := { bankOf [] 1 with alpha := 3/10, q := 1/2, X := 120 }

/-- Elementwise borrower return written from the spec's words (§3 band list
and §4.1 `borrowerReturn`): Band 1 `A > A0`; Band 2 `ACross < A ≤ A0`;
Band 3 `AMin ≤ A ≤ ACross`; Band 4 otherwise, with the band formulas as the
spec states them. -/
def borrowerReturnSpec (b : Bank) (a : ℚ) : ℚ :=
  if b.AM 0 < a then b.p * b.X - b.gamma * b.I - b.f
  else if b.Across < a ∧ a ≤ b.AM 0 then
    b.p * b.X - b.gamma * b.I - b.f
      - b.mon a * (1 + ((b.beta - b.gamma) / b.beta) * (b.q / (b.p - b.q)))
  else if b.Amin ≤ a ∧ a ≤ b.Across then
    b.p * b.X - b.beta * b.I - b.f - b.monE a
  else 0

/-- Elementwise borrowers reached written from the spec's words (§4.1
`borrowersReached`), with the monitor equity requirement spelled out as
`(1/beta) * q * m / (p - q)`. -/
def borrowersReachedSpec (b : Bank) (a : ℚ) : Option ℚ :=
  if b.AM 0 < a then none
  else if b.Across < a ∧ a ≤ b.AM 0 then
    some (b.K / ((1 / b.beta) * b.q * b.mon a / (b.p - b.q) - b.F))
  else if b.Amin ≤ a ∧ a ≤ b.Across then some (b.K / (b.I + b.F))
  else some 0

/-- C1: `breturn` maps each element of `A` by the four-band dispatch of §3
with the band formulas of §4.1, boundary points assigned to the inclusive
side nearer `AMin` (strict `>` toward higher bands, `≤`/`≥` toward lower
bands). -/
theorem breturn_band_dispatch (b : Bank) (A : List ℚ) :
    b.breturn A = A.map (borrowerReturnSpec b) := by
  unfold Bank.breturn
  congr 1
  funext a
  simp only [Bank.brS, Bank.brHigh, Bank.brLev, Bank.brEq, borrowerReturnSpec,
    gt_iff_lt, ge_iff_le]
  split_ifs <;> first | rfl | tauto

/-- C9: `nreach` returns a same-length sequence computed elementwise by the
four-band dispatch: `nan` (modelled `none`) above `AM(0)`, the intermediated
count `K / (Im(mon a) - F)` in band 2, `K / (I + F)` in band 3 and `0`
below `Amin`. -/
theorem nreach_band_dispatch (b : Bank) (A : List ℚ) :
    b.nreach A = A.map (borrowersReachedSpec b) ∧ (b.nreach A).length = A.length := by
  constructor
  · unfold Bank.nreach
    congr 1
    funext a
    simp only [Bank.nreachS, Bank.Im, borrowersReachedSpec, gt_iff_lt, ge_iff_le]
    split_ifs <;> first | rfl | tauto
  · unfold Bank.nreach
    exact List.length_map A _

/-- C8: with the default parameters and `beta = 1`, `mmax` is exactly
`0.97 * 200 - 1 * 100 - 30 = 64` and `mcross` is exactly
`1 * 100 * (0.97 - 0.82) / 0.82 = 750/41 ≈ 18.29`. -/
theorem concrete_mmax_mcross :
    bank1.mmax = 97/100 * 200 - 1 * 100 - 30 ∧
    bank1.mcross = 1 * 100 * (97/100 - 82/100) / (82/100) ∧
    bank1.mmax = 64 ∧ bank1.mcross = 750 / 41 := by
  refine ⟨?_, ?_, ?_, ?_⟩ <;> norm_num [bank1, bankOf, Bank.mmax, Bank.mcross]

/-- C6 (counterexample): construction performs no parameter validation at
all — `__init__` consists of attribute assignments only, so even a parameter
that violates the §3 table (here `beta = -1 < 0`) is accepted and the
constructor succeeds; no `InvalidParameter` failure path exists. -/
theorem mkBank_no_validation :
    (mkBank [0] (-1)).isOk = true ∧ (bankOf [0] (-1)).beta = -1 ∧
    (bankOf [0] (-1)).q < (bankOf [0] (-1)).p := by
  refine ⟨rfl, rfl, ?_⟩
  norm_num [bankOf]

/-- C6 (amended): the constructor takes only the asset list and `beta`;
the success probabilities are the fixed literals `p = 0.97` and `q = 0.82`,
so every constructed model satisfies `q < p`, but construction always
succeeds and never raises — there is no fail-fast validation. -/
theorem mkBank_always_ok (A : List ℚ) (beta : ℚ) :
    mkBank A beta = Except.ok (bankOf A beta) ∧
    (bankOf A beta).q < (bankOf A beta).p ∧
    (bankOf A beta).p = 97/100 ∧ (bankOf A beta).q = 82/100 := by
  refine ⟨rfl, ?_, rfl, rfl⟩
  norm_num [bankOf]

/-- C7: at the failing input `a = 130 = AM(0)` of the default model
(`beta = 1`, `F = 0`), `nreach` takes the band-2 branch — the element lies
in band 2 by the tie-break — and the divisor `Im(mon(a)) - F` of that branch
is exactly `0`: the source divides `K` by zero (numpy: `inf` with a runtime
warning) instead of signaling a `DomainUndefined` condition. -/
theorem nreach_band2_divides_by_zero :
    (bankOf [130] 1).nreach [130] =
      [some ((bankOf [130] 1).K /
        ((bankOf [130] 1).Im ((bankOf [130] 1).mon 130) - (bankOf [130] 1).F))] ∧
    ((130:ℚ) ≤ (bankOf [130] 1).AM 0 ∧ (130:ℚ) > (bankOf [130] 1).Across) ∧
    (bankOf [130] 1).Im ((bankOf [130] 1).mon 130) - (bankOf [130] 1).F = 0 := by
  have hAM : (bankOf [130] 1).AM 0 = 130 := by norm_num [bankOf, Bank.AM, Bank.B]
  have hAc : (bankOf [130] 1).Across = 3655 / 41 := by
    norm_num [bankOf, Bank.Across, Bank.AM, Bank.B, Bank.mcross]
  have hband : ((130:ℚ) ≤ (bankOf [130] 1).AM 0 ∧ (130:ℚ) > (bankOf [130] 1).Across) := by
    rw [hAM, hAc]; norm_num
  have hden : (bankOf [130] 1).Im ((bankOf [130] 1).mon 130) - (bankOf [130] 1).F = 0 := by
    norm_num [bankOf, Bank.Im, Bank.mon, Bank.AM, Bank.B]
  refine ⟨?_, hband, hden⟩
  unfold Bank.nreach Bank.nreachS
  rw [List.map_cons, List.map_nil]
  rw [if_neg (by rw [hAM]; norm_num), if_pos hband]

/-- C10: for every parameter set, the optimal leveraged monitoring at the
band-2 upper boundary `A = AM(0)` is exactly `0`, hence the monitor equity
requirement there is `0` and the band-2 divisor of `nreach` equals `-F`;
when additionally `F = 0` and `Across < AM(0)`, that divisor is exactly zero
at an asset level the tie-break places inside band 2. -/
theorem mon_at_AM0_zero (b : Bank) :
    b.mon (b.AM 0) = 0 ∧ b.Im (b.mon (b.AM 0)) = 0 ∧
    b.Im (b.mon (b.AM 0)) - b.F = -b.F ∧
    (b.F = 0 → b.Across < b.AM 0 →
      (b.AM 0 ≤ b.AM 0 ∧ b.AM 0 > b.Across) ∧ b.Im (b.mon (b.AM 0)) - b.F = 0) := by
  have h1 : b.mon (b.AM 0) = 0 := by
    unfold Bank.mon
    rw [sub_self, zero_mul, zero_div]
  have h2 : b.Im (b.mon (b.AM 0)) = 0 := by
    rw [h1]
    unfold Bank.Im
    rw [mul_zero, zero_div]
  refine ⟨h1, h2, by rw [h2]; ring, fun hF hlt => ⟨⟨le_refl _, hlt⟩, by rw [h2, hF]; ring⟩⟩

/-- C10 witness: the default model (`beta = 1`) satisfies `F = 0` and
`Across < AM(0)`, so the band-2 divisor of `nreach` is exactly zero at the
boundary asset level `AM(0)`, which the tie-break places inside band 2. -/
theorem mon_at_AM0_zero_witness :
    bank1.mon (bank1.AM 0) = 0 ∧
    ((bank1.AM 0 ≤ bank1.AM 0 ∧ bank1.AM 0 > bank1.Across) ∧
      bank1.Im (bank1.mon (bank1.AM 0)) - bank1.F = 0) :=
  ⟨(mon_at_AM0_zero bank1).1,
   (mon_at_AM0_zero bank1).2.2.2 (by norm_num [bank1, bankOf])
     (by norm_num [bank1, bankOf, Bank.Across, Bank.AM, Bank.B, Bank.mcross])⟩

/-- Helper: the crossing identity, shared by several developments below. -/
theorem cross_eq (b : Bank) (hq : b.q ≠ 0) (hpq : b.p - b.q ≠ 0)
    (hb : b.beta ≠ 0) : b.AM b.mcross = b.AMe b.mcross := by
  unfold Bank.AM Bank.AMe Bank.mcross Bank.B
  field_simp
  ring

/-- Helper: `AM` is affine in `m`, with slope `-D / (beta * (p - q))` where
`D = (alpha - 1) * beta * p + gamma * q` is the divisor of `mon`. -/
theorem AM_zero_sub (b : Bank) (hpq : b.p - b.q ≠ 0) (hb : b.beta ≠ 0) (m : ℚ) :
    b.AM 0 - b.AM m =
      m * (((b.alpha - 1) * b.beta * b.p + b.gamma * b.q) / (b.beta * (b.p - b.q))) := by
  unfold Bank.AM Bank.B
  field_simp
  ring

/-- Helper: `AMe` is affine in `m`, with slope `-E / (p - q)` where
`E = q + (alpha - 1) * p` is the divisor of `monE`. -/
theorem AMe_sub (b : Bank) (hpq : b.p - b.q ≠ 0) (m1 m2 : ℚ) :
    b.AMe m1 - b.AMe m2 = (m2 - m1) * ((b.q + (b.alpha - 1) * b.p) / (b.p - b.q)) := by
  unfold Bank.AMe Bank.B
  field_simp
  ring

/-- Helper: `mon` inverts `AM` wherever its divisor is nonzero. -/
theorem mon_AM (b : Bank) (hpq : b.p - b.q ≠ 0) (hb : b.beta ≠ 0)
    (hD : (b.alpha - 1) * b.beta * b.p + b.gamma * b.q ≠ 0) (m : ℚ) :
    b.mon (b.AM m) = m := by
  unfold Bank.mon Bank.AM Bank.B
  field_simp
  ring

/-- Helper: `monE` inverts `AMe` wherever its divisor is nonzero. -/
theorem monE_AMe (b : Bank) (hpq : b.p - b.q ≠ 0)
    (hE : b.q + (b.alpha - 1) * b.p ≠ 0) (m : ℚ) :
    b.monE (b.AMe m) = m := by
  unfold Bank.monE Bank.AMe Bank.B
  field_simp
  ring

/-- Helper: `mcross` is non-negative for non-negative parameters. -/
theorem mcross_nonneg (b : Bank) (hq : 0 < b.q) (hpq : b.q < b.p)
    (hb : 0 < b.beta) (hI : 0 ≤ b.I) : 0 ≤ b.mcross := by
  unfold Bank.mcross
  have hs : (0:ℚ) ≤ b.p - b.q := by linarith
  exact div_nonneg (mul_nonneg (mul_nonneg hb.le hI) hs) hq.le

/-- Helper: the threshold ordering `Amin ≤ Across ≤ AM(0)` under non-positive
curve slopes and `mcross ≤ mmax`. -/
theorem ordering_of (b : Bank) (hq : 0 < b.q) (hpq : b.q < b.p)
    (hb : 0 < b.beta) (hI : 0 ≤ b.I)
    (hD : 0 ≤ (b.alpha - 1) * b.beta * b.p + b.gamma * b.q)
    (hE : 0 ≤ b.q + (b.alpha - 1) * b.p)
    (hm : b.mcross ≤ b.mmax) :
    b.Amin ≤ b.Across ∧ b.Across ≤ b.AM 0 := by
  have hs : (0:ℚ) < b.p - b.q := by linarith
  have hmc : 0 ≤ b.mcross := mcross_nonneg b hq hpq hb hI
  constructor
  · have hxe : b.Across = b.AMe b.mcross := cross_eq b hq.ne' hs.ne' hb.ne'
    have hdiff := AMe_sub b hs.ne' b.mcross b.mmax
    have hnn : 0 ≤ (b.mmax - b.mcross) * ((b.q + (b.alpha - 1) * b.p) / (b.p - b.q)) :=
      mul_nonneg (by linarith) (div_nonneg hE hs.le)
    unfold Bank.Amin
    rw [hxe]
    linarith [hdiff, hnn]
  · have hdiff := AM_zero_sub b hs.ne' hb.ne' b.mcross
    have hnn : 0 ≤ b.mcross *
        (((b.alpha - 1) * b.beta * b.p + b.gamma * b.q) / (b.beta * (b.p - b.q))) :=
      mul_nonneg hmc (div_nonneg hD (by positivity))
    unfold Bank.Across
    linarith [hdiff, hnn]

/-- C3: the two collateral curves coincide exactly at the crossing
monitoring level: `AM(mcross) = AMe(mcross)` whenever `q`, `p - q` and
`beta` are nonzero. -/
theorem curves_cross_at_mcross (b : Bank) (hq : b.q ≠ 0) (hpq : b.p - b.q ≠ 0)
    (hb : b.beta ≠ 0) : b.AM b.mcross = b.AMe b.mcross :=
  cross_eq b hq hpq hb

/-- C2 (counterexample): the §3 table constraints alone do not force the
threshold ordering.  With the default parameters except `X = 104` — a set
satisfying `0 < q < p ≤ 1`, positive costs of capital, positive investment
and return, non-negative fixed costs — `Amin > Across`. -/
theorem threshold_ordering_fails :
    ((0:ℚ) < bankX104.q ∧ bankX104.q < bankX104.p ∧ bankX104.p ≤ 1) ∧
    ((0:ℚ) < bankX104.gamma ∧ (0:ℚ) < bankX104.beta ∧ (0:ℚ) < bankX104.X ∧
      (0:ℚ) < bankX104.I) ∧
    ((0:ℚ) ≤ bankX104.F ∧ (0:ℚ) ≤ bankX104.f ∧ (0:ℚ) ≤ bankX104.K ∧
      (0:ℚ) ≤ bankX104.alpha) ∧
    ¬ (bankX104.Amin ≤ bankX104.Across) := by
  refine ⟨⟨?_, ?_, ?_⟩, ⟨?_, ?_, ?_, ?_⟩, ⟨?_, ?_, ?_, ?_⟩, ?_⟩ <;>
    norm_num [bankX104, bankOf, Bank.Amin, Bank.Across, Bank.AM, Bank.AMe, Bank.B,
      Bank.mcross, Bank.mmax]

/-- C2 (amended): the threshold ordering `Amin ≤ Across ≤ AM(0)` holds for
every parameter set with `0 < q < p`, `beta > 0`, `I ≥ 0`, non-positive
slopes of both collateral curves (equivalently non-negative divisors of
`mon` and `monE`) and `mcross ≤ mmax`. -/
theorem threshold_ordering (b : Bank) (hq : 0 < b.q) (hpq : b.q < b.p)
    (hb : 0 < b.beta) (hI : 0 ≤ b.I)
    (hD : 0 ≤ (b.alpha - 1) * b.beta * b.p + b.gamma * b.q)
    (hE : 0 ≤ b.q + (b.alpha - 1) * b.p)
    (hm : b.mcross ≤ b.mmax) :
    b.Amin ≤ b.Across ∧ b.Across ≤ b.AM 0 :=
  ordering_of b hq hpq hb hI hD hE hm

/-- C2 witness: at the default parameters the hypotheses hold and the
thresholds are ordered. -/
theorem threshold_ordering_witness :
    ((0:ℚ) < bank1.q ∧ bank1.q < bank1.p ∧ (0:ℚ) < bank1.beta ∧ (0:ℚ) ≤ bank1.I ∧
      (0:ℚ) ≤ (bank1.alpha - 1) * bank1.beta * bank1.p + bank1.gamma * bank1.q ∧
      (0:ℚ) ≤ bank1.q + (bank1.alpha - 1) * bank1.p ∧ bank1.mcross ≤ bank1.mmax) ∧
    (bank1.Amin ≤ bank1.Across ∧ bank1.Across ≤ bank1.AM 0) :=
  ⟨⟨by norm_num [bank1, bankOf], by norm_num [bank1, bankOf], by norm_num [bank1, bankOf],
     by norm_num [bank1, bankOf], by norm_num [bank1, bankOf], by norm_num [bank1, bankOf],
     by norm_num [bank1, bankOf, Bank.mcross, Bank.mmax]⟩,
   threshold_ordering bank1 (by norm_num [bank1, bankOf]) (by norm_num [bank1, bankOf])
     (by norm_num [bank1, bankOf]) (by norm_num [bank1, bankOf])
     (by norm_num [bank1, bankOf]) (by norm_num [bank1, bankOf])
     (by norm_num [bank1, bankOf, Bank.mcross, Bank.mmax])⟩

/-- Helper: continuity of the borrower return across the band-2/band-3
boundary, shared by the monotonicity development. -/
theorem boundary_eq (b : Bank) (hq : b.q ≠ 0) (hpq : b.p - b.q ≠ 0) (hb : b.beta ≠ 0)
    (hD : (b.alpha - 1) * b.beta * b.p + b.gamma * b.q ≠ 0)
    (hE : b.q + (b.alpha - 1) * b.p ≠ 0) :
    b.brLev b.Across = b.brEq b.Across := by
  have h1 : b.mon b.Across = b.mcross := by
    show b.mon (b.AM b.mcross) = b.mcross
    exact mon_AM b hpq hb hD b.mcross
  have h2 : b.monE b.Across = b.mcross := by
    show b.monE (b.AM b.mcross) = b.mcross
    rw [cross_eq b hq hpq hb]
    exact monE_AMe b hpq hE b.mcross
  unfold Bank.brLev Bank.brEq
  rw [h1, h2]
  unfold Bank.mcross
  field_simp
  ring

/-- C4: the band-2 expression of `breturn` evaluated at `A = Across` equals
the band-3 expression at the same point — no jump at the regime boundary —
whenever `q`, `p - q`, `beta` and the divisors of `mon` and `monE` are
nonzero. -/
theorem breturn_continuous_at_across (b : Bank) (hq : b.q ≠ 0)
    (hpq : b.p - b.q ≠ 0) (hb : b.beta ≠ 0)
    (hD : (b.alpha - 1) * b.beta * b.p + b.gamma * b.q ≠ 0)
    (hE : b.q + (b.alpha - 1) * b.p ≠ 0) :
    b.brLev b.Across = b.brEq b.Across :=
  boundary_eq b hq hpq hb hD hE

/-- C4 witness: the two band formulas agree at `Across` for the default
parameters. -/
theorem breturn_continuous_at_across_witness :
    (bank1.q ≠ 0 ∧ bank1.p - bank1.q ≠ 0 ∧ bank1.beta ≠ 0 ∧
      (bank1.alpha - 1) * bank1.beta * bank1.p + bank1.gamma * bank1.q ≠ 0 ∧
      bank1.q + (bank1.alpha - 1) * bank1.p ≠ 0) ∧
    bank1.brLev bank1.Across = bank1.brEq bank1.Across :=
  ⟨⟨by norm_num [bank1, bankOf], by norm_num [bank1, bankOf], by norm_num [bank1, bankOf],
     by norm_num [bank1, bankOf], by norm_num [bank1, bankOf]⟩,
   breturn_continuous_at_across bank1 (by norm_num [bank1, bankOf])
     (by norm_num [bank1, bankOf]) (by norm_num [bank1, bankOf])
     (by norm_num [bank1, bankOf]) (by norm_num [bank1, bankOf])⟩

/-- Helper: `mon` is antitone in the asset level when its divisor is
positive. -/
theorem mon_anti (b : Bank) (hs : 0 < b.p - b.q) (hb : 0 < b.beta)
    (hD : 0 < (b.alpha - 1) * b.beta * b.p + b.gamma * b.q)
    {a1 a2 : ℚ} (h : a1 ≤ a2) : b.mon a2 ≤ b.mon a1 := by
  unfold Bank.mon
  have hbs : (0:ℚ) ≤ b.beta * (b.p - b.q) := by positivity
  have hnum : (b.AM 0 - a2) * (b.beta * (b.p - b.q)) ≤
      (b.AM 0 - a1) * (b.beta * (b.p - b.q)) :=
    mul_le_mul_of_nonneg_right (by linarith) hbs
  exact (div_le_div_iff_of_pos_right hD).mpr hnum

/-- Helper: `mon` is non-negative at or below `AM(0)`. -/
theorem mon_nonneg (b : Bank) (hs : 0 < b.p - b.q) (hb : 0 < b.beta)
    (hD : 0 < (b.alpha - 1) * b.beta * b.p + b.gamma * b.q)
    {a : ℚ} (ha : a ≤ b.AM 0) : 0 ≤ b.mon a := by
  unfold Bank.mon
  exact div_nonneg (mul_nonneg (by linarith) (by positivity)) hD.le

/-- Helper: `monE` is antitone in the asset level when its divisor is
positive. -/
theorem monE_anti (b : Bank) (hs : 0 < b.p - b.q)
    (hE : 0 < b.q + (b.alpha - 1) * b.p)
    {a1 a2 : ℚ} (h : a1 ≤ a2) : b.monE a2 ≤ b.monE a1 := by
  unfold Bank.monE
  exact mul_le_mul_of_nonneg_right (by linarith) (by positivity)

/-- Helper: the cost factor multiplying `mon` in the band-2 return is at
least one when equity capital is at least as expensive as uninformed
capital. -/
theorem lev_factor_ge_one (b : Bank) (hq : 0 < b.q) (hs : 0 < b.p - b.q)
    (hb : 0 < b.beta) (hg : b.gamma ≤ b.beta) :
    (1:ℚ) ≤ 1 + ((b.beta - b.gamma) / b.beta) * (b.q / (b.p - b.q)) := by
  have h1 : 0 ≤ (b.beta - b.gamma) / b.beta := div_nonneg (by linarith) hb.le
  have h2 : 0 ≤ b.q / (b.p - b.q) := div_nonneg hq.le hs.le
  nlinarith [mul_nonneg h1 h2]

/-- Helper: the band-2 return is monotone in the asset level. -/
theorem brLev_mono (b : Bank) (hq : 0 < b.q) (hs : 0 < b.p - b.q)
    (hb : 0 < b.beta) (hg : b.gamma ≤ b.beta)
    (hD : 0 < (b.alpha - 1) * b.beta * b.p + b.gamma * b.q)
    {a1 a2 : ℚ} (h : a1 ≤ a2) : b.brLev a1 ≤ b.brLev a2 := by
  have hmon := mon_anti b hs hb hD h
  have hc := lev_factor_ge_one b hq hs hb hg
  have := mul_le_mul_of_nonneg_right hmon (le_trans zero_le_one hc)
  unfold Bank.brLev
  linarith

/-- Helper: the band-2 return is at most the band-1 return at or below
`AM(0)`. -/
theorem brLev_le_high (b : Bank) (hq : 0 < b.q) (hs : 0 < b.p - b.q)
    (hb : 0 < b.beta) (hg : b.gamma ≤ b.beta)
    (hD : 0 < (b.alpha - 1) * b.beta * b.p + b.gamma * b.q)
    {a : ℚ} (ha : a ≤ b.AM 0) : b.brLev a ≤ b.brHigh := by
  have hmon := mon_nonneg b hs hb hD ha
  have hc := lev_factor_ge_one b hq hs hb hg
  have := mul_le_mul_of_nonneg_left hc hmon
  unfold Bank.brLev Bank.brHigh
  nlinarith

/-- Helper: the band-3 return is monotone in the asset level. -/
theorem brEq_mono (b : Bank) (hs : 0 < b.p - b.q)
    (hE : 0 < b.q + (b.alpha - 1) * b.p)
    {a1 a2 : ℚ} (h : a1 ≤ a2) : b.brEq a1 ≤ b.brEq a2 := by
  have := monE_anti b hs hE h
  unfold Bank.brEq
  linarith

/-- Helper: `brS` on band 1. -/
theorem brS_high (b : Bank) {a : ℚ} (h : b.AM 0 < a) : b.brS a = b.brHigh := by
  simp [Bank.brS, h]

/-- Helper: `brS` on band 2. -/
theorem brS_lev (b : Bank) {a : ℚ} (h1 : a ≤ b.AM 0) (h2 : b.Across < a) :
    b.brS a = b.brLev a := by
  simp [Bank.brS, h1, h2, not_lt.mpr h1]

/-- Helper: `brS` on band 3 (given the band ordering). -/
theorem brS_eqonly (b : Bank) {a : ℚ} (h0 : b.Across ≤ b.AM 0)
    (h1 : a ≤ b.Across) (h2 : b.Amin ≤ a) : b.brS a = b.brEq a := by
  simp [Bank.brS, h1, h2, not_lt.mpr (h1.trans h0), not_lt.mpr h1]

/-- Helper: elementwise monotonicity of the borrower return at or above
`Amin`, under the hypotheses of the amended ordering claim together with
`gamma ≤ beta` and strict divisor positivity. -/
theorem brS_mono (b : Bank) (hq : 0 < b.q) (hpq : b.q < b.p)
    (hb : 0 < b.beta) (hg : b.gamma ≤ b.beta) (hI : 0 ≤ b.I)
    (hD : 0 < (b.alpha - 1) * b.beta * b.p + b.gamma * b.q)
    (hE : 0 < b.q + (b.alpha - 1) * b.p)
    (hm : b.mcross ≤ b.mmax)
    {a1 a2 : ℚ} (h1 : b.Amin ≤ a1) (h12 : a1 ≤ a2) :
    b.brS a1 ≤ b.brS a2 := by
  have hs : (0:ℚ) < b.p - b.q := by linarith
  obtain ⟨hord1, hord2⟩ := ordering_of b hq hpq hb hI hD.le hE.le hm
  have hbd : b.brLev b.Across = b.brEq b.Across :=
    boundary_eq b hq.ne' hs.ne' hb.ne' hD.ne' hE.ne'
  rcases lt_or_le (b.AM 0) a2 with k2 | k2
  · rw [brS_high b k2]
    rcases lt_or_le (b.AM 0) a1 with k1 | k1
    · rw [brS_high b k1]
    · rcases lt_or_le b.Across a1 with j1 | j1
      · rw [brS_lev b k1 j1]
        exact brLev_le_high b hq hs hb hg hD k1
      · rw [brS_eqonly b hord2 j1 h1]
        calc b.brEq a1 ≤ b.brEq b.Across := brEq_mono b hs hE j1
          _ = b.brLev b.Across := hbd.symm
          _ ≤ b.brHigh := brLev_le_high b hq hs hb hg hD hord2
  · have k1 : a1 ≤ b.AM 0 := le_trans h12 k2
    rcases lt_or_le b.Across a2 with j2 | j2
    · rw [brS_lev b k2 j2]
      rcases lt_or_le b.Across a1 with j1 | j1
      · rw [brS_lev b k1 j1]
        exact brLev_mono b hq hs hb hg hD h12
      · rw [brS_eqonly b hord2 j1 h1]
        calc b.brEq a1 ≤ b.brEq b.Across := brEq_mono b hs hE j1
          _ = b.brLev b.Across := hbd.symm
          _ ≤ b.brLev a2 := brLev_mono b hq hs hb hg hD j2.le
    · have j1 : a1 ≤ b.Across := le_trans h12 j2
      have h2 : b.Amin ≤ a2 := le_trans h1 h12
      rw [brS_eqonly b hord2 j1 h1, brS_eqonly b hord2 j2 h2]
      exact brEq_mono b hs hE h12

/-- C5 (counterexample): monotonicity fails for a parameter set satisfying
every §3 table constraint, including `gamma ≤ beta`.  With the default
parameters except `alpha = 0.3`, `q = 0.5`, `X = 120`, the asset levels
`71 ≤ 75` are both at or above `Amin` and both fall in band 3, yet the
borrower return at `75` is strictly below the one at `71`. -/
theorem breturn_mono_fails :
    ((0:ℚ) < bankEneg.q ∧ bankEneg.q < bankEneg.p ∧ bankEneg.p ≤ 1) ∧
    ((0:ℚ) < bankEneg.gamma ∧ (0:ℚ) < bankEneg.beta ∧
      bankEneg.gamma ≤ bankEneg.beta ∧ (0:ℚ) < bankEneg.X ∧ (0:ℚ) < bankEneg.I) ∧
    ((0:ℚ) ≤ bankEneg.F ∧ (0:ℚ) ≤ bankEneg.f ∧ (0:ℚ) ≤ bankEneg.K ∧
      (0:ℚ) < bankEneg.alpha) ∧
    (bankEneg.Amin ≤ 71 ∧ bankEneg.Amin ≤ 75 ∧ (71:ℚ) ≤ 75) ∧
    bankEneg.brS 75 < bankEneg.brS 71 := by
  have hAM : bankEneg.AM 0 = 17746 / 235 := by
    norm_num [bankEneg, bankOf, Bank.AM, Bank.B]
  have hAc : bankEneg.Across = 26159 / 235 := by
    norm_num [bankEneg, bankOf, Bank.Across, Bank.AM, Bank.B, Bank.mcross]
  have hAmin : bankEneg.Amin = 82644 / 1175 := by
    norm_num [bankEneg, bankOf, Bank.Amin, Bank.AMe, Bank.B, Bank.mmax]
  have hbr : ∀ x : ℚ, x ≤ bankEneg.AM 0 → x ≤ bankEneg.Across →
      bankEneg.Amin ≤ x → bankEneg.brS x = bankEneg.brEq x := by
    intro x hx1 hx2 hx3
    unfold Bank.brS
    rw [if_neg (not_lt.mpr hx1), if_neg (fun hc => (not_lt.mpr hx2) hc.2),
      if_pos ⟨hx2, hx3⟩]
  have hv1 : bankEneg.brS 71 = bankEneg.brEq 71 :=
    hbr 71 (by rw [hAM]; norm_num) (by rw [hAc]; norm_num) (by rw [hAmin]; norm_num)
  have hv2 : bankEneg.brS 75 = bankEneg.brEq 75 :=
    hbr 75 (by rw [hAM]; norm_num) (by rw [hAc]; norm_num) (by rw [hAmin]; norm_num)
  have hlt : bankEneg.brS 75 < bankEneg.brS 71 := by
    rw [hv1, hv2]
    norm_num [bankEneg, bankOf, Bank.brEq, Bank.monE, Bank.AMe, Bank.B]
  refine ⟨⟨?_, ?_, ?_⟩, ⟨?_, ?_, ?_, ?_, ?_⟩, ⟨?_, ?_, ?_, ?_⟩, ⟨?_, ?_, ?_⟩, hlt⟩ <;>
    norm_num [bankEneg, bankOf, Bank.Amin, Bank.AMe, Bank.B, Bank.mmax]

/-- C5 (amended): the borrower return is non-decreasing in pledgeable assets
over the loan-viable range for every parameter set with `0 < q < p`,
`0 < beta`, `gamma ≤ beta`, `I ≥ 0`, strictly positive divisors of `mon`
and `monE` (strictly decreasing collateral curves) and `mcross ≤ mmax`. -/
theorem breturn_mono (b : Bank) (hq : 0 < b.q) (hpq : b.q < b.p)
    (hb : 0 < b.beta) (hg : b.gamma ≤ b.beta) (hI : 0 ≤ b.I)
    (hD : 0 < (b.alpha - 1) * b.beta * b.p + b.gamma * b.q)
    (hE : 0 < b.q + (b.alpha - 1) * b.p)
    (hm : b.mcross ≤ b.mmax)
    (a1 a2 : ℚ) (h1 : b.Amin ≤ a1) (_h2 : b.Amin ≤ a2) (h12 : a1 ≤ a2) :
    b.brS a1 ≤ b.brS a2 :=
  brS_mono b hq hpq hb hg hI hD hE hm h1 h12

/-- C5 witness: at the default parameters the hypotheses hold and the
borrower return increases from `A = 0` to `A = 100`. -/
theorem breturn_mono_witness :
    ((0:ℚ) < bank1.q ∧ bank1.q < bank1.p ∧ (0:ℚ) < bank1.beta ∧
      bank1.gamma ≤ bank1.beta ∧ (0:ℚ) ≤ bank1.I ∧
      (0:ℚ) < (bank1.alpha - 1) * bank1.beta * bank1.p + bank1.gamma * bank1.q ∧
      (0:ℚ) < bank1.q + (bank1.alpha - 1) * bank1.p ∧ bank1.mcross ≤ bank1.mmax ∧
      bank1.Amin ≤ 0 ∧ bank1.Amin ≤ 100 ∧ (0:ℚ) ≤ 100) ∧
    bank1.brS 0 ≤ bank1.brS 100 :=
  ⟨⟨by norm_num [bank1, bankOf], by norm_num [bank1, bankOf], by norm_num [bank1, bankOf],
     by norm_num [bank1, bankOf], by norm_num [bank1, bankOf], by norm_num [bank1, bankOf],
     by norm_num [bank1, bankOf], by norm_num [bank1, bankOf, Bank.mcross, Bank.mmax],
     by norm_num [bank1, bankOf, Bank.Amin, Bank.AMe, Bank.B, Bank.mmax],
     by norm_num [bank1, bankOf, Bank.Amin, Bank.AMe, Bank.B, Bank.mmax], by norm_num⟩,
   breturn_mono bank1 (by norm_num [bank1, bankOf]) (by norm_num [bank1, bankOf])
     (by norm_num [bank1, bankOf]) (by norm_num [bank1, bankOf])
     (by norm_num [bank1, bankOf]) (by norm_num [bank1, bankOf])
     (by norm_num [bank1, bankOf]) (by norm_num [bank1, bankOf, Bank.mcross, Bank.mmax])
     0 100 (by norm_num [bank1, bankOf, Bank.Amin, Bank.AMe, Bank.B, Bank.mmax])
     (by norm_num [bank1, bankOf, Bank.Amin, Bank.AMe, Bank.B, Bank.mmax])
     (by norm_num)⟩

/-- C3 witness: the crossing identity at the default parameters. -/
theorem curves_cross_at_mcross_witness :
    bank1.q ≠ 0 ∧ bank1.p - bank1.q ≠ 0 ∧ bank1.beta ≠ 0 ∧
    bank1.AM bank1.mcross = bank1.AMe bank1.mcross :=
  ⟨by norm_num [bank1, bankOf], by norm_num [bank1, bankOf], by norm_num [bank1, bankOf],
   curves_cross_at_mcross bank1 (by norm_num [bank1, bankOf])
     (by norm_num [bank1, bankOf]) (by norm_num [bank1, bankOf])⟩
